import Mathlib

/-!
Verification development for the home-router DHCP protocol engine.

This file shallowly embeds the DHCP packet codec (crates/dhcp-proto:
packet.rs, option.rs, message_type.rs, mac.rs) and the allocation engine
(crates/dhcp-server: dhcp/server.rs, db.rs, config.rs, models.rs) into Lean,
and proves or refutes a fixed list of claims about them.

Conventions of the embedding:
* a Rust u8 is `Byte := Fin 256`; u16/u32 values are `Nat` values produced
  with an explicit `% 2 ^ w` wherever the Rust code can wrap;
* byte buffers are `List Byte`;
* Rust `String` values are represented by their UTF-8 byte sequences
  (`List Byte`); `String::from_utf8_lossy` is modelled byte-for-byte by
  `utf8Lossy` below;
* fallible Rust code returns `Except`/`Option`; a possible panic is
  modelled as `Option.none` of an outer `Option` layer;
* the SQLite tables behind `Database` are modelled as in-memory lists in
  row order and the SQL queries of db.rs as list traversals;
  `chrono::Utc::now()` is passed in as an explicit `now` parameter.
-/

/-- A Rust u8. -/
abbrev Byte := Fin 256

/-- Truncating conversion to u8 (Rust `as u8`). -/
def mkByte (n : Nat) : Byte := ⟨n % 256, Nat.mod_lt n (by decide)⟩

@[simp] theorem mkByte_val (n : Nat) : (mkByte n).val = n % 256 := rfl

/-- Big-endian u32 from four bytes (`u32::from_be_bytes`). -/
def be32 (a b c d : Byte) : Nat :=
  a.val * 16777216 + b.val * 65536 + c.val * 256 + d.val

/-- Big-endian u16 from two bytes (`u16::from_be_bytes`). -/
def be16 (a b : Byte) : Nat := a.val * 256 + b.val

/-- Big-endian bytes of a u32 (`u32::to_be_bytes`). -/
def u32be (t : Nat) : List Byte :=
  [mkByte (t / 16777216), mkByte (t / 65536), mkByte (t / 256), mkByte t]

/-- Big-endian bytes of a u16 (`u16::to_be_bytes`). -/
def u16be (t : Nat) : List Byte := [mkByte (t / 256), mkByte t]

theorem be32_lt (a b c d : Byte) : be32 a b c d < 2 ^ 32 := by
  have ha := a.isLt; have hb := b.isLt; have hc := c.isLt; have hd := d.isLt
  unfold be32; omega

theorem be16_lt (a b : Byte) : be16 a b < 2 ^ 16 := by
  have ha := a.isLt; have hb := b.isLt
  unfold be16; omega

theorem be32_u32be (t : Nat) (h : t < 2 ^ 32) :
    ∀ a b c d, u32be t = [a, b, c, d] → be32 a b c d = t := by
  intro a b c d he
  unfold u32be at he
  obtain ⟨ha, hb, hc, hd⟩ : mkByte (t / 16777216) = a ∧ mkByte (t / 65536) = b ∧
      mkByte (t / 256) = c ∧ mkByte t = d := by
    simpa using he
  subst ha hb hc hd
  simp only [be32, mkByte_val]
  omega

theorem be16_u16be (t : Nat) (h : t < 2 ^ 16) :
    ∀ a b, u16be t = [a, b] → be16 a b = t := by
  intro a b he
  unfold u16be at he
  obtain ⟨ha, hb⟩ : mkByte (t / 256) = a ∧ mkByte t = b := by simpa using he
  subst ha hb
  simp only [be16, mkByte_val]
  omega

/-! ### UTF-8 lossy decoding

Model of `String::from_utf8_lossy` at the byte level: valid UTF-8
sequences are copied verbatim, each maximal subpart of an ill-formed
sequence (and an incomplete sequence at the end of input) is replaced by
the UTF-8 encoding of U+FFFD, namely `EF BF BD`.  The byte-class table
matches core's `run_utf8_validation`. -/

/-- Is `b` a UTF-8 continuation byte (0x80–0xBF)? -/
def isCont (b : Byte) : Bool := 0x80 ≤ b.val && b.val ≤ 0xBF

/-- The UTF-8 encoding of the replacement character U+FFFD. -/
def repBytes : List Byte := [0xEF, 0xBF, 0xBD]

/-- Allowed second byte of a three-byte sequence led by `b`. -/
def snd3Ok (b c : Byte) : Bool :=
  if b.val = 0xE0 then 0xA0 ≤ c.val && c.val ≤ 0xBF
  else if b.val = 0xED then 0x80 ≤ c.val && c.val ≤ 0x9F
  else isCont c

/-- Allowed second byte of a four-byte sequence led by `b`. -/
def snd4Ok (b c : Byte) : Bool :=
  if b.val = 0xF0 then 0x90 ≤ c.val && c.val ≤ 0xBF
  else if b.val = 0xF4 then 0x80 ≤ c.val && c.val ≤ 0x8F
  else isCont c

/-- Byte-level model of `String::from_utf8_lossy`. -/
def utf8Lossy : List Byte → List Byte
  | [] => []
  | b :: rest =>
    if b.val < 0x80 then b :: utf8Lossy rest
    else if b.val < 0xC2 then repBytes ++ utf8Lossy rest
    else if b.val < 0xE0 then
      match rest with
      | [] => repBytes
      | c :: rest2 =>
        if isCont c then b :: c :: utf8Lossy rest2
        else repBytes ++ utf8Lossy (c :: rest2)
    else if b.val < 0xF0 then
      match rest with
      | [] => repBytes
      | c :: rest2 =>
        if snd3Ok b c then
          match rest2 with
          | [] => repBytes
          | d :: rest3 =>
            if isCont d then b :: c :: d :: utf8Lossy rest3
            else repBytes ++ utf8Lossy (d :: rest3)
        else repBytes ++ utf8Lossy (c :: rest2)
    else if b.val < 0xF5 then
      match rest with
      | [] => repBytes
      | c :: rest2 =>
        if snd4Ok b c then
          match rest2 with
          | [] => repBytes
          | d :: rest3 =>
            if isCont d then
              match rest3 with
              | [] => repBytes
              | e :: rest4 =>
                if isCont e then b :: c :: d :: e :: utf8Lossy rest4
                else repBytes ++ utf8Lossy (e :: rest4)
            else repBytes ++ utf8Lossy (d :: rest3)
        else repBytes ++ utf8Lossy (c :: rest2)
    else repBytes ++ utf8Lossy rest

theorem utf8Lossy_ascii {b : Byte} (h : b.val < 0x80) (m : List Byte) :
    utf8Lossy (b :: m) = b :: utf8Lossy m := by
  rw [utf8Lossy.eq_def]
  simp [h]

theorem utf8Lossy_two {b c : Byte} (h1 : 0xC2 ≤ b.val) (h2 : b.val < 0xE0)
    (hc : isCont c = true) (m : List Byte) :
    utf8Lossy (b :: c :: m) = b :: c :: utf8Lossy m := by
  rw [utf8Lossy.eq_def]
  have hb1 : ¬ b.val < 0x80 := by omega
  have hb2 : ¬ b.val < 0xC2 := by omega
  simp [hb1, hb2, h2, hc]

theorem utf8Lossy_three {b c d : Byte} (h1 : 0xE0 ≤ b.val) (h2 : b.val < 0xF0)
    (hc : snd3Ok b c = true) (hd : isCont d = true) (m : List Byte) :
    utf8Lossy (b :: c :: d :: m) = b :: c :: d :: utf8Lossy m := by
  rw [utf8Lossy.eq_def]
  have hb1 : ¬ b.val < 0x80 := by omega
  have hb2 : ¬ b.val < 0xC2 := by omega
  have hb3 : ¬ b.val < 0xE0 := by omega
  simp [hb1, hb2, hb3, h2, hc, hd]

theorem utf8Lossy_four {b c d e : Byte} (h1 : 0xF0 ≤ b.val) (h2 : b.val < 0xF5)
    (hc : snd4Ok b c = true) (hd : isCont d = true) (he : isCont e = true)
    (m : List Byte) :
    utf8Lossy (b :: c :: d :: e :: m) = b :: c :: d :: e :: utf8Lossy m := by
  rw [utf8Lossy.eq_def]
  have hb1 : ¬ b.val < 0x80 := by omega
  have hb2 : ¬ b.val < 0xC2 := by omega
  have hb3 : ¬ b.val < 0xE0 := by omega
  have hb4 : ¬ b.val < 0xF0 := by omega
  simp [hb1, hb2, hb3, hb4, h2, hc, hd, he]

theorem utf8Lossy_rep (m : List Byte) :
    utf8Lossy (repBytes ++ m) = repBytes ++ utf8Lossy m := by
  have : utf8Lossy ((0xEF : Byte) :: (0xBF : Byte) :: (0xBD : Byte) :: m) =
      (0xEF : Byte) :: (0xBF : Byte) :: (0xBD : Byte) :: utf8Lossy m :=
    utf8Lossy_three (by decide) (by decide) (by decide) (by decide) m
  simpa [repBytes] using this

/-- One decoding step: a nonempty input always splits off a chunk that the
decoder copies stably, leaving a strictly shorter remainder. -/
theorem utf8Lossy_step (l : List Byte) (h : l ≠ []) :
    ∃ chunk l', utf8Lossy l = chunk ++ utf8Lossy l' ∧ l'.length < l.length ∧
      ∀ m, utf8Lossy (chunk ++ m) = chunk ++ utf8Lossy m := by
  have hnil : utf8Lossy [] = [] := rfl
  rcases l with _ | ⟨b, rest⟩
  · exact absurd rfl h
  by_cases h1 : b.val < 0x80
  · exact ⟨[b], rest, by rw [List.cons_append, List.nil_append, utf8Lossy_ascii h1],
      by simp, fun m => by rw [List.singleton_append, utf8Lossy_ascii h1]; rfl⟩
  by_cases h2 : b.val < 0xC2
  · refine ⟨repBytes, rest, ?_, by simp, utf8Lossy_rep⟩
    rw [utf8Lossy.eq_def]; simp [h1, h2]
  by_cases h3 : b.val < 0xE0
  · rcases rest with _ | ⟨c, rest2⟩
    · refine ⟨repBytes, [], ?_, by simp, utf8Lossy_rep⟩
      rw [utf8Lossy.eq_def]; simp [h1, h2, h3, hnil]
    by_cases hc : isCont c = true
    · exact ⟨[b, c], rest2, by rw [utf8Lossy_two (by omega) h3 hc]; rfl,
        by simp; omega, fun m => by simpa using utf8Lossy_two (by omega) h3 hc m⟩
    · refine ⟨repBytes, c :: rest2, ?_, by simp, utf8Lossy_rep⟩
      rw [utf8Lossy.eq_def]; simp [h1, h2, h3, hc]
  by_cases h4 : b.val < 0xF0
  · rcases rest with _ | ⟨c, rest2⟩
    · refine ⟨repBytes, [], ?_, by simp, utf8Lossy_rep⟩
      rw [utf8Lossy.eq_def]; simp [h1, h2, h3, h4, hnil]
    by_cases hs : snd3Ok b c = true
    · rcases rest2 with _ | ⟨d, rest3⟩
      · refine ⟨repBytes, [], ?_, by simp, utf8Lossy_rep⟩
        rw [utf8Lossy.eq_def]; simp [h1, h2, h3, h4, hs, hnil]
      by_cases hd : isCont d = true
      · exact ⟨[b, c, d], rest3, by rw [utf8Lossy_three (by omega) h4 hs hd]; rfl,
          by simp; omega, fun m => by simpa using utf8Lossy_three (by omega) h4 hs hd m⟩
      · refine ⟨repBytes, d :: rest3, ?_, by simp, utf8Lossy_rep⟩
        rw [utf8Lossy.eq_def]; simp [h1, h2, h3, h4, hs, hd]
    · refine ⟨repBytes, c :: rest2, ?_, by simp, utf8Lossy_rep⟩
      rw [utf8Lossy.eq_def]; simp [h1, h2, h3, h4, hs]
  by_cases h5 : b.val < 0xF5
  · rcases rest with _ | ⟨c, rest2⟩
    · refine ⟨repBytes, [], ?_, by simp, utf8Lossy_rep⟩
      rw [utf8Lossy.eq_def]; simp [h1, h2, h3, h4, h5, hnil]
    by_cases hs : snd4Ok b c = true
    · rcases rest2 with _ | ⟨d, rest3⟩
      · refine ⟨repBytes, [], ?_, by simp, utf8Lossy_rep⟩
        rw [utf8Lossy.eq_def]; simp [h1, h2, h3, h4, h5, hs, hnil]
      by_cases hd : isCont d = true
      · rcases rest3 with _ | ⟨e, rest4⟩
        · refine ⟨repBytes, [], ?_, by simp, utf8Lossy_rep⟩
          rw [utf8Lossy.eq_def]; simp [h1, h2, h3, h4, h5, hs, hd, hnil]
        by_cases he : isCont e = true
        · exact ⟨[b, c, d, e], rest4, by rw [utf8Lossy_four (by omega) h5 hs hd he]; rfl,
            by simp; omega, fun m => by simpa using utf8Lossy_four (by omega) h5 hs hd he m⟩
        · refine ⟨repBytes, e :: rest4, ?_, by simp, utf8Lossy_rep⟩
          rw [utf8Lossy.eq_def]; simp [h1, h2, h3, h4, h5, hs, hd, he]
      · refine ⟨repBytes, d :: rest3, ?_, by simp, utf8Lossy_rep⟩
        rw [utf8Lossy.eq_def]; simp [h1, h2, h3, h4, h5, hs, hd]
    · refine ⟨repBytes, c :: rest2, ?_, by simp, utf8Lossy_rep⟩
      rw [utf8Lossy.eq_def]; simp [h1, h2, h3, h4, h5, hs]
  · refine ⟨repBytes, rest, ?_, by simp, utf8Lossy_rep⟩
    rw [utf8Lossy.eq_def]; simp [h1, h2, h3, h4, h5]

/-- `String::from_utf8_lossy` is idempotent: its output is valid UTF-8,
so decoding it again changes nothing. -/
theorem utf8Lossy_idem (l : List Byte) :
    utf8Lossy (utf8Lossy l) = utf8Lossy l := by
  suffices h : ∀ n (l : List Byte), l.length ≤ n →
      utf8Lossy (utf8Lossy l) = utf8Lossy l from h l.length l le_rfl
  intro n
  induction n with
  | zero =>
    intro l hl
    have : l = [] := List.length_eq_zero.mp (Nat.le_zero.mp hl)
    subst this; rfl
  | succ n ih =>
    intro l hl
    rcases eq_or_ne l [] with hx | hx
    · subst hx; rfl
    · obtain ⟨chunk, l', he, hlt, hpre⟩ := utf8Lossy_step l hx
      rw [he, hpre (utf8Lossy l'), ih l' (by omega)]

/-! ### Protocol data types (crates/dhcp-proto) -/

/-- An IPv4 address as its four octets (std::net::Ipv4Addr). -/
structure Ipv4 where
  o0 : Byte
  o1 : Byte
  o2 : Byte
  o3 : Byte
deriving DecidableEq

/-- `Ipv4Addr::octets`. -/
def Ipv4.octets (a : Ipv4) : List Byte := [a.o0, a.o1, a.o2, a.o3]

/-- `Ipv4Addr::from(u32)`: big-endian octets of the 32-bit value. -/
def Ipv4.ofU32 (n : Nat) : Ipv4 :=
  ⟨mkByte (n / 16777216), mkByte (n / 65536), mkByte (n / 256), mkByte n⟩

/-- A MAC address: exactly six bytes (mac.rs `MacAddress([u8; 6])`). -/
structure MacAddress where
  m0 : Byte
  m1 : Byte
  m2 : Byte
  m3 : Byte
  m4 : Byte
  m5 : Byte
deriving DecidableEq

/-- `MacAddress::from_slice`: `Some` of the first six bytes when the slice
has at least six, `None` otherwise. -/
def MacAddress.fromSlice : List Byte → Option MacAddress
  | a :: b :: c :: d :: e :: f :: _ => some ⟨a, b, c, d, e, f⟩
  | _ => none

/-- The six bytes of a MAC address (`MacAddress::as_bytes`). -/
def MacAddress.octets (m : MacAddress) : List Byte :=
  [m.m0, m.m1, m.m2, m.m3, m.m4, m.m5]

/-- Upper-case hex digit of a value below 16 (as used by `format!("{:02X}")`). -/
def hexUpper (n : Nat) : Byte := if n < 10 then mkByte (48 + n) else mkByte (55 + n)

/-- The two upper-case hex digits of one byte. -/
def byteHexUpper (b : Byte) : List Byte := [hexUpper (b.val / 16), hexUpper (b.val % 16)]

/-- `MacAddress::to_string`: the UTF-8 bytes of `XX:XX:XX:XX:XX:XX`
(colon = byte 58). -/
def MacAddress.toText (m : MacAddress) : List Byte :=
  byteHexUpper m.m0 ++ [58] ++ byteHexUpper m.m1 ++ [58] ++ byteHexUpper m.m2 ++ [58] ++
  byteHexUpper m.m3 ++ [58] ++ byteHexUpper m.m4 ++ [58] ++ byteHexUpper m.m5

/-- DHCP message types (message_type.rs). -/
inductive MessageType where
  | discover
  | offer
  | request
  | decline
  | ack
  | nak
  | release
  | inform
deriving DecidableEq

/-- `MessageType::to_u8`. -/
def MessageType.toU8 : MessageType → Byte
  | .discover => 1
  | .offer => 2
  | .request => 3
  | .decline => 4
  | .ack => 5
  | .nak => 6
  | .release => 7
  | .inform => 8

/-- `MessageType::from_u8`. -/
def MessageType.fromU8 (value : Byte) : Option MessageType :=
  match value.val with
  | 1 => some .discover
  | 2 => some .offer
  | 3 => some .request
  | 4 => some .decline
  | 5 => some .ack
  | 6 => some .nak
  | 7 => some .release
  | 8 => some .inform
  | _ => none

/-- DHCP options (option.rs).  Rust `String` payloads are carried as their
UTF-8 bytes; the Rust variant `End` is `endMarker` here. -/
inductive DhcpOption where
  | subnetMask (addr : Ipv4)
  | router (addrs : List Ipv4)
  | dnsServer (addrs : List Ipv4)
  | domainName (name : List Byte)
  | requestedIpAddress (addr : Ipv4)
  | leaseTime (t : Nat)
  | messageType (mt : MessageType)
  | serverIdentifier (addr : Ipv4)
  | renewalTime (t : Nat)
  | rebindingTime (t : Nat)
  | hostname (name : List Byte)
  | endMarker
  | unknown (code : Byte) (data : List Byte)
deriving DecidableEq

/-- `data.chunks_exact(4)` mapped to `Ipv4Addr::new`; a remainder shorter
than four bytes is dropped, exactly as `chunks_exact` does. -/
def chunks4 : List Byte → List Ipv4
  | a :: b :: c :: d :: rest => ⟨a, b, c, d⟩ :: chunks4 rest
  | _ => []

/-- `DhcpOption::parse(code, data)` (option.rs).  Match arms appear in the
same order and with the same length guards as the Rust `match`. -/
def DhcpOption.parseOpt (code : Byte) (data : List Byte) : DhcpOption :=
  match code.val, data with
  | 1, [a, b, c, d] => .subnetMask ⟨a, b, c, d⟩
  | 3, _ => .router (chunks4 data)
  | 6, _ => .dnsServer (chunks4 data)
  | 15, _ => .domainName (utf8Lossy data)
  | 50, [a, b, c, d] => .requestedIpAddress ⟨a, b, c, d⟩
  | 51, [a, b, c, d] => .leaseTime (be32 a b c d)
  | 53, [v] =>
    match MessageType.fromU8 v with
    | some mt => .messageType mt
    | none => .unknown code data
  | 54, [a, b, c, d] => .serverIdentifier ⟨a, b, c, d⟩
  | 58, [a, b, c, d] => .renewalTime (be32 a b c d)
  | 59, [a, b, c, d] => .rebindingTime (be32 a b c d)
  | 12, _ => .hostname (utf8Lossy data)
  | _, _ => .unknown code data

/-- `DhcpOption::to_bytes` (option.rs).  Length bytes are written with the
same `as u8` truncation as the source. -/
def DhcpOption.encodeOpt : DhcpOption → List Byte
  | .subnetMask a => 1 :: 4 :: a.octets
  | .router addrs => 3 :: mkByte (addrs.length * 4) :: (addrs.map Ipv4.octets).flatten
  | .dnsServer addrs => 6 :: mkByte (addrs.length * 4) :: (addrs.map Ipv4.octets).flatten
  | .domainName name => 15 :: mkByte name.length :: name
  | .requestedIpAddress a => 50 :: 4 :: a.octets
  | .leaseTime t => 51 :: 4 :: u32be t
  | .messageType mt => [53, 1, mt.toU8]
  | .serverIdentifier a => 54 :: 4 :: a.octets
  | .renewalTime t => 58 :: 4 :: u32be t
  | .rebindingTime t => 59 :: 4 :: u32be t
  | .hostname name => 12 :: mkByte name.length :: name
  | .endMarker => []
  | .unknown code data => code :: mkByte data.length :: data

/-- A DHCP packet (packet.rs). -/
structure DhcpPacket where
  op : Byte
  htype : Byte
  hlen : Byte
  hops : Byte
  xid : Nat
  secs : Nat
  flags : Nat
  ciaddr : Ipv4
  yiaddr : Ipv4
  siaddr : Ipv4
  giaddr : Ipv4
  chaddr : MacAddress
  options : List DhcpOption
deriving DecidableEq

/-- `DhcpPacket::new()`. -/
def DhcpPacket.new : DhcpPacket where
  op := 1
  htype := 1
  hlen := 6
  hops := 0
  xid := 0
  secs := 0
  flags := 0
  ciaddr := ⟨0, 0, 0, 0⟩
  yiaddr := ⟨0, 0, 0, 0⟩
  siaddr := ⟨0, 0, 0, 0⟩
  giaddr := ⟨0, 0, 0, 0⟩
  chaddr := ⟨0, 0, 0, 0, 0, 0⟩
  options := []

/-- The DHCP magic cookie `[99, 130, 83, 99]`. -/
def magicCookie : List Byte := [99, 130, 83, 99]

/-- Errors of `DhcpPacket::parse`; the two `Err(String)` messages of the
source, as a closed type. -/
inductive ParseError where
  | tooSmall
  | invalidHardwareAddress
deriving DecidableEq

/-- Fuel-indexed body of the option scan loop of `DhcpPacket::parse`.
Every loop iteration consumes at least one byte, so running it with fuel
equal to the input length is exactly the source's `while i < data.len()`
loop; see `scanOptions_cons` for the fuel-free unfolding. -/
def scanOptionsF : Nat → List Byte → List DhcpOption
  | _, [] => []
  | 0, _ :: _ => []
  | fuel + 1, code :: rest =>
    if code = 255 then [DhcpOption.endMarker]
    else if code = 0 then scanOptionsF fuel rest
    else
      match rest with
      | [] => []
      | l :: rest2 =>
        if rest2.length < l.val then []
        else DhcpOption.parseOpt code (rest2.take l.val) :: scanOptionsF fuel (rest2.drop l.val)

/-- The option scan loop of `DhcpPacket::parse`, operating on the bytes
from offset 240 on.  Code 255 pushes `endMarker` and stops; code 0 is
skipped; a missing length byte or a truncated payload stops the scan. -/
def scanOptions (l : List Byte) : List DhcpOption := scanOptionsF l.length l

theorem scanOptionsF_congr :
    ∀ f1 f2 l, l.length ≤ f1 → l.length ≤ f2 → scanOptionsF f1 l = scanOptionsF f2 l := by
  intro f1
  induction f1 with
  | zero =>
    intro f2 l h1 _
    have : l = [] := List.length_eq_zero.mp (Nat.le_zero.mp h1)
    subst this
    cases f2 <;> rfl
  | succ f ih =>
    intro f2 l h1 h2
    rcases l with _ | ⟨code, rest⟩
    · cases f2 <;> rfl
    rcases f2 with _ | f2
    · simp at h2
    simp only [scanOptionsF]
    by_cases hcode : code = 255
    · simp [hcode]
    by_cases hz : code = 0
    · simp only [List.length_cons] at h1 h2
      simp [hz, ih f2 rest (by omega) (by omega)]
    rcases rest with _ | ⟨l1, rest2⟩
    · simp [hcode, hz]
    by_cases htr : rest2.length < l1.val
    · simp [hcode, hz, htr]
    · simp only [List.length_cons] at h1 h2
      have hd : (rest2.drop l1.val).length ≤ rest2.length := by
        simp
      simp [hcode, hz, htr, ih f2 (rest2.drop l1.val) (by omega) (by omega)]

/-- The scan loop unfolds on a cons cell exactly as the source loop body. -/
theorem scanOptions_cons (code : Byte) (rest : List Byte) :
    scanOptions (code :: rest) =
      if code = 255 then [DhcpOption.endMarker]
      else if code = 0 then scanOptions rest
      else
        match rest with
        | [] => []
        | l :: rest2 =>
          if rest2.length < l.val then []
          else DhcpOption.parseOpt code (rest2.take l.val) :: scanOptions (rest2.drop l.val) := by
  show scanOptionsF (rest.length + 1) (code :: rest) = _
  simp only [scanOptionsF]
  by_cases hcode : code = 255
  · simp [hcode]
  by_cases hz : code = 0
  · simp [hcode, hz, scanOptions]
  rcases rest with _ | ⟨l1, rest2⟩
  · simp [hcode, hz]
  by_cases htr : rest2.length < l1.val
  · simp [hcode, hz, htr]
  · have : scanOptionsF (rest2.length + 1) (rest2.drop l1.val) =
        scanOptions (rest2.drop l1.val) :=
      scanOptionsF_congr _ _ _ (by simp; omega) (le_refl _)
    simp [hcode, hz, htr, this]

/-- `DhcpPacket::parse` (packet.rs).  The 34 leading bytes are destructured
positionally: binder `b0` is `data[0]`, …, `h5` is `data[33]`; the fallback
arm is exactly the `MacAddress::from_slice` failure (fewer than 34 bytes),
matching the `ok_or("Invalid MAC address")?` path.  `rest` holds
`data[34..]`, so `data[236..240]` is `(rest.drop 202).take 4` and the
options region `data[240..]` is `rest.drop 206`. -/
def DhcpPacket.parse (data : List Byte) : Except ParseError DhcpPacket :=
  if data.length < 240 then .error .tooSmall
  else
    match data with
    | b0 :: b1 :: b2 :: b3 :: x0 :: x1 :: x2 :: x3 :: s0 :: s1 :: f0 :: f1 ::
      c0 :: c1 :: c2 :: c3 :: y0 :: y1 :: y2 :: y3 :: v0 :: v1 :: v2 :: v3 ::
      g0 :: g1 :: g2 :: g3 :: h0 :: h1 :: h2 :: h3 :: h4 :: h5 :: rest =>
      .ok
        { op := b0, htype := b1, hlen := b2, hops := b3
          xid := be32 x0 x1 x2 x3
          secs := be16 s0 s1
          flags := be16 f0 f1
          ciaddr := ⟨c0, c1, c2, c3⟩
          yiaddr := ⟨y0, y1, y2, y3⟩
          siaddr := ⟨v0, v1, v2, v3⟩
          giaddr := ⟨g0, g1, g2, g3⟩
          chaddr := ⟨h0, h1, h2, h3, h4, h5⟩
          options :=
            if 240 < data.length ∧ (rest.drop 202).take 4 = magicCookie then
              scanOptions (rest.drop 206)
            else [] }
    | _ => .error .invalidHardwareAddress

/-- `DhcpPacket::to_bytes` (packet.rs): the 240-byte header (zeros in the
unused region 34–235, magic cookie at 236–239), the serialized options,
and one trailing End byte. -/
def DhcpPacket.toBytes (p : DhcpPacket) : List Byte :=
  [p.op, p.htype, p.hlen, p.hops] ++ u32be p.xid ++ u16be p.secs ++ u16be p.flags ++
  p.ciaddr.octets ++ p.yiaddr.octets ++ p.siaddr.octets ++ p.giaddr.octets ++
  p.chaddr.octets ++ List.replicate 202 (0 : Byte) ++ magicCookie ++
  ((p.options.map DhcpOption.encodeOpt).flatten ++ [255])

/-- `DhcpPacket::get_message_type`: the first `MessageType` option. -/
def DhcpPacket.getMessageType (p : DhcpPacket) : Option MessageType :=
  p.options.findSome? fun o =>
    match o with
    | .messageType mt => some mt
    | _ => none

deriving instance DecidableEq for Except

set_option maxRecDepth 100000

/-! ### Round-trip machinery for the codec -/

theorem chunks4_length : ∀ l : List Byte, (chunks4 l).length = l.length / 4
  | [] => rfl
  | [_] => by simp [chunks4]
  | [_, _] => by simp [chunks4]
  | [_, _, _] => by simp [chunks4]
  | a :: b :: c :: d :: rest => by
    simp only [chunks4, List.length_cons, chunks4_length rest]
    omega

theorem chunks4_flatten : ∀ l : List Ipv4, chunks4 ((l.map Ipv4.octets).flatten) = l
  | [] => rfl
  | a :: rest => by
    obtain ⟨a0, a1, a2, a3⟩ := a
    simp [Ipv4.octets, chunks4, chunks4_flatten rest]

theorem length_flatten_octets : ∀ l : List Ipv4,
    ((l.map Ipv4.octets).flatten).length = 4 * l.length
  | [] => rfl
  | a :: rest => by
    simp only [List.map_cons, List.flatten_cons, List.length_append, Ipv4.octets,
      List.length_cons, List.length_nil, length_flatten_octets rest]
    omega

theorem fromU8_toU8 (mt : MessageType) : MessageType.fromU8 mt.toU8 = some mt := by
  cases mt <;> rfl

theorem parseOpt_ne_end (code : Byte) (data : List Byte) :
    DhcpOption.parseOpt code data ≠ .endMarker := by
  intro h
  unfold DhcpOption.parseOpt at h
  split at h
  all_goals try split at h
  all_goals simp at h

theorem parseOpt_router_inv {code : Byte} {data : List Byte} {l}
    (h : DhcpOption.parseOpt code data = .router l) : l = chunks4 data := by
  unfold DhcpOption.parseOpt at h
  split at h
  all_goals try split at h
  all_goals first
    | (injection h with h1; exact h1.symm)
    | simp at h

theorem parseOpt_dns_inv {code : Byte} {data : List Byte} {l}
    (h : DhcpOption.parseOpt code data = .dnsServer l) : l = chunks4 data := by
  unfold DhcpOption.parseOpt at h
  split at h
  all_goals try split at h
  all_goals first
    | (injection h with h1; exact h1.symm)
    | simp at h

theorem parseOpt_domain_inv {code : Byte} {data : List Byte} {s}
    (h : DhcpOption.parseOpt code data = .domainName s) : s = utf8Lossy data := by
  unfold DhcpOption.parseOpt at h
  split at h
  all_goals try split at h
  all_goals first
    | (injection h with h1; exact h1.symm)
    | simp at h

theorem parseOpt_hostname_inv {code : Byte} {data : List Byte} {s}
    (h : DhcpOption.parseOpt code data = .hostname s) : s = utf8Lossy data := by
  unfold DhcpOption.parseOpt at h
  split at h
  all_goals try split at h
  all_goals first
    | (injection h with h1; exact h1.symm)
    | simp at h

theorem parseOpt_leaseTime_inv {code : Byte} {data : List Byte} {t}
    (h : DhcpOption.parseOpt code data = .leaseTime t) : t < 2 ^ 32 := by
  unfold DhcpOption.parseOpt at h
  split at h
  all_goals try split at h
  all_goals first
    | (injection h with h1; exact h1 ▸ be32_lt _ _ _ _)
    | simp at h

theorem parseOpt_renewalTime_inv {code : Byte} {data : List Byte} {t}
    (h : DhcpOption.parseOpt code data = .renewalTime t) : t < 2 ^ 32 := by
  unfold DhcpOption.parseOpt at h
  split at h
  all_goals try split at h
  all_goals first
    | (injection h with h1; exact h1 ▸ be32_lt _ _ _ _)
    | simp at h

theorem parseOpt_rebindingTime_inv {code : Byte} {data : List Byte} {t}
    (h : DhcpOption.parseOpt code data = .rebindingTime t) : t < 2 ^ 32 := by
  unfold DhcpOption.parseOpt at h
  split at h
  all_goals try split at h
  all_goals first
    | (injection h with h1; exact h1 ▸ be32_lt _ _ _ _)
    | simp at h

theorem parseOpt_unknown_inv {code : Byte} {data : List Byte} {c d}
    (h : DhcpOption.parseOpt code data = .unknown c d) : c = code ∧ d = data := by
  unfold DhcpOption.parseOpt at h
  split at h
  all_goals try split at h
  all_goals first
    | (injection h with h1 h2; exact ⟨h1.symm, h2.symm⟩)
    | simp at h

/-- Everything `DhcpOption::parse` guarantees about its result (given a
payload read by the option scan loop, i.e. at most 255 bytes, with a code
that is neither Pad nor End): the facts needed for the re-parse of the
re-encoded option. -/
def ParsedGood : DhcpOption → Prop
  | .router l => l.length ≤ 63
  | .dnsServer l => l.length ≤ 63
  | .domainName s => utf8Lossy s = s
  | .hostname s => utf8Lossy s = s
  | .leaseTime t => t < 2 ^ 32
  | .renewalTime t => t < 2 ^ 32
  | .rebindingTime t => t < 2 ^ 32
  | .unknown c d =>
      c.val ≠ 0 ∧ c.val ≠ 255 ∧ d.length ≤ 255 ∧ DhcpOption.parseOpt c d = .unknown c d
  | .endMarker => False
  | _ => True

theorem parseOpt_good (code : Byte) (data : List Byte) (h0 : code.val ≠ 0)
    (h255 : code.val ≠ 255) (hlen : data.length ≤ 255) :
    ParsedGood (DhcpOption.parseOpt code data) := by
  rcases h : DhcpOption.parseOpt code data with
    a | l | l | s | a | t | mt | a | t | t | s | - | ⟨c, d⟩
  · exact trivial
  · have h1 := parseOpt_router_inv h
    subst h1
    simp only [ParsedGood, chunks4_length]
    omega
  · have h1 := parseOpt_dns_inv h
    subst h1
    simp only [ParsedGood, chunks4_length]
    omega
  · have h1 := parseOpt_domain_inv h
    subst h1
    exact utf8Lossy_idem data
  · exact trivial
  · exact parseOpt_leaseTime_inv h
  · exact trivial
  · exact trivial
  · exact parseOpt_renewalTime_inv h
  · exact parseOpt_rebindingTime_inv h
  · have h1 := parseOpt_hostname_inv h
    subst h1
    exact utf8Lossy_idem data
  · exact absurd h (parseOpt_ne_end code data)
  · obtain ⟨hc, hd⟩ := parseOpt_unknown_inv h
    subst hc hd
    exact ⟨h0, h255, hlen, h⟩

/-- Length bound the round trip needs on text options: the re-encoded
length byte is written `as u8`, so only payloads of at most 255 bytes
re-encode faithfully. -/
def textOk : DhcpOption → Prop
  | .domainName s => s.length ≤ 255
  | .hostname s => s.length ≤ 255
  | _ => True

/-- Scanning one well-formed code/length/payload triple. -/
theorem scanOptions_tlv (code lenB : Byte) (payload rest : List Byte)
    (h255 : code.val ≠ 255) (h0 : code.val ≠ 0) (hlen : payload.length = lenB.val) :
    scanOptions (code :: lenB :: (payload ++ rest)) =
      DhcpOption.parseOpt code payload :: scanOptions rest := by
  rw [scanOptions_cons]
  have hc1 : ¬ code = (255 : Byte) := fun hh => h255 (by rw [hh]; rfl)
  have hc2 : ¬ code = (0 : Byte) := fun hh => h0 (by rw [hh]; rfl)
  rw [if_neg hc1, if_neg hc2]
  show (if (payload ++ rest).length < lenB.val then []
    else DhcpOption.parseOpt code ((payload ++ rest).take lenB.val) ::
      scanOptions ((payload ++ rest).drop lenB.val)) = _
  rw [if_neg (by simp only [List.length_append]; omega)]
  rw [← hlen, List.take_left, List.drop_left]

theorem parseOpt_c3 (d : List Byte) : DhcpOption.parseOpt 3 d = .router (chunks4 d) := by
  unfold DhcpOption.parseOpt
  split <;> first
    | rfl
    | simp_all [show ((3 : Byte)).val = 3 from rfl]

theorem parseOpt_c6 (d : List Byte) : DhcpOption.parseOpt 6 d = .dnsServer (chunks4 d) := by
  unfold DhcpOption.parseOpt
  split <;> first
    | rfl
    | simp_all [show ((6 : Byte)).val = 6 from rfl]

theorem parseOpt_c15 (d : List Byte) : DhcpOption.parseOpt 15 d = .domainName (utf8Lossy d) := by
  unfold DhcpOption.parseOpt
  split <;> first
    | rfl
    | simp_all [show ((15 : Byte)).val = 15 from rfl]

theorem parseOpt_c12 (d : List Byte) : DhcpOption.parseOpt 12 d = .hostname (utf8Lossy d) := by
  unfold DhcpOption.parseOpt
  split <;> first
    | rfl
    | simp_all [show ((12 : Byte)).val = 12 from rfl]

/-- Re-scanning a re-encoded parsed option recovers it and continues. -/
theorem scan_encode_cons (o : DhcpOption) (rest : List Byte) (hg : ParsedGood o)
    (ht : textOk o) :
    scanOptions (o.encodeOpt ++ rest) = o :: scanOptions rest := by
  cases o with
  | subnetMask a =>
    obtain ⟨a0, a1, a2, a3⟩ := a
    show scanOptions ((1 : Byte) :: (4 : Byte) :: (([a0, a1, a2, a3] : List Byte) ++ rest)) = _
    rw [scanOptions_tlv _ _ _ _ (by decide) (by decide) rfl]
    rfl
  | router addrs =>
    have hg' : addrs.length ≤ 63 := hg
    show scanOptions ((3 : Byte) :: mkByte (addrs.length * 4) ::
      ((addrs.map Ipv4.octets).flatten ++ rest)) = _
    rw [scanOptions_tlv _ _ _ _ (by decide) (by decide)
      (by rw [length_flatten_octets, mkByte_val]; omega)]
    rw [parseOpt_c3, chunks4_flatten]
  | dnsServer addrs =>
    have hg' : addrs.length ≤ 63 := hg
    show scanOptions ((6 : Byte) :: mkByte (addrs.length * 4) ::
      ((addrs.map Ipv4.octets).flatten ++ rest)) = _
    rw [scanOptions_tlv _ _ _ _ (by decide) (by decide)
      (by rw [length_flatten_octets, mkByte_val]; omega)]
    rw [parseOpt_c6, chunks4_flatten]
  | domainName s =>
    have hg' : utf8Lossy s = s := hg
    have ht' : s.length ≤ 255 := ht
    show scanOptions ((15 : Byte) :: mkByte s.length :: (s ++ rest)) = _
    rw [scanOptions_tlv _ _ _ _ (by decide) (by decide) (by rw [mkByte_val]; omega)]
    rw [parseOpt_c15, hg']
  | requestedIpAddress a =>
    obtain ⟨a0, a1, a2, a3⟩ := a
    show scanOptions ((50 : Byte) :: (4 : Byte) :: (([a0, a1, a2, a3] : List Byte) ++ rest)) = _
    rw [scanOptions_tlv _ _ _ _ (by decide) (by decide) rfl]
    rfl
  | leaseTime t =>
    have hg' : t < 2 ^ 32 := hg
    show scanOptions ((51 : Byte) :: (4 : Byte) :: (u32be t ++ rest)) = _
    rw [scanOptions_tlv _ _ _ _ (by decide) (by decide) rfl]
    have hp : DhcpOption.parseOpt 51 (u32be t) = .leaseTime
        (be32 (mkByte (t / 16777216)) (mkByte (t / 65536)) (mkByte (t / 256)) (mkByte t)) := rfl
    rw [hp, be32_u32be t hg' _ _ _ _ rfl]
  | messageType mt =>
    show scanOptions ((53 : Byte) :: (1 : Byte) :: (([mt.toU8] : List Byte) ++ rest)) = _
    rw [scanOptions_tlv _ _ _ _ (by decide) (by decide) rfl]
    cases mt <;> rfl
  | serverIdentifier a =>
    obtain ⟨a0, a1, a2, a3⟩ := a
    show scanOptions ((54 : Byte) :: (4 : Byte) :: (([a0, a1, a2, a3] : List Byte) ++ rest)) = _
    rw [scanOptions_tlv _ _ _ _ (by decide) (by decide) rfl]
    rfl
  | renewalTime t =>
    have hg' : t < 2 ^ 32 := hg
    show scanOptions ((58 : Byte) :: (4 : Byte) :: (u32be t ++ rest)) = _
    rw [scanOptions_tlv _ _ _ _ (by decide) (by decide) rfl]
    have hp : DhcpOption.parseOpt 58 (u32be t) = .renewalTime
        (be32 (mkByte (t / 16777216)) (mkByte (t / 65536)) (mkByte (t / 256)) (mkByte t)) := rfl
    rw [hp, be32_u32be t hg' _ _ _ _ rfl]
  | rebindingTime t =>
    have hg' : t < 2 ^ 32 := hg
    show scanOptions ((59 : Byte) :: (4 : Byte) :: (u32be t ++ rest)) = _
    rw [scanOptions_tlv _ _ _ _ (by decide) (by decide) rfl]
    have hp : DhcpOption.parseOpt 59 (u32be t) = .rebindingTime
        (be32 (mkByte (t / 16777216)) (mkByte (t / 65536)) (mkByte (t / 256)) (mkByte t)) := rfl
    rw [hp, be32_u32be t hg' _ _ _ _ rfl]
  | hostname s =>
    have hg' : utf8Lossy s = s := hg
    have ht' : s.length ≤ 255 := ht
    show scanOptions ((12 : Byte) :: mkByte s.length :: (s ++ rest)) = _
    rw [scanOptions_tlv _ _ _ _ (by decide) (by decide) (by rw [mkByte_val]; omega)]
    rw [parseOpt_c12, hg']
  | endMarker => exact hg.elim
  | unknown c d =>
    obtain ⟨hc0, hc255, hdlen, hself⟩ := hg
    show scanOptions (c :: mkByte d.length :: (d ++ rest)) = _
    rw [scanOptions_tlv _ _ _ _ hc255 hc0 (by rw [mkByte_val]; omega), hself]

/-- Re-scanning a whole re-encoded parsed option list recovers it, with
the End byte appended by `to_bytes` scanned back as an `endMarker`. -/
theorem scan_encode_list (os : List DhcpOption)
    (h : ∀ o ∈ os, ParsedGood o ∧ textOk o) :
    scanOptions ((os.map DhcpOption.encodeOpt).flatten ++ [255]) =
      os ++ [DhcpOption.endMarker] := by
  induction os with
  | nil =>
    simp only [List.map_nil, List.flatten_nil, List.nil_append]
    rfl
  | cons o os ih =>
    obtain ⟨hg, ht⟩ := h o (by simp)
    simp only [List.map_cons, List.flatten_cons, List.append_assoc]
    rw [scan_encode_cons o _ hg ht, ih (fun o' ho' => h o' (by simp [ho']))]
    rfl

/-- Shape of any scanned option list: well-formed parsed options, with at
most one `endMarker`, at the end. -/
theorem scanOptionsF_inv : ∀ fuel l, l.length ≤ fuel →
    ∃ (core : List DhcpOption) (flag : Bool), scanOptionsF fuel l =
        core ++ (if flag then [DhcpOption.endMarker] else []) ∧
      ∀ o ∈ core, o ≠ DhcpOption.endMarker ∧ ParsedGood o := by
  intro fuel
  induction fuel with
  | zero =>
    intro l h
    have : l = [] := List.length_eq_zero.mp (Nat.le_zero.mp h)
    subst this
    exact ⟨[], false, rfl, by simp⟩
  | succ f ih =>
    intro l h
    rcases l with _ | ⟨code, rest⟩
    · exact ⟨[], false, rfl, by simp⟩
    by_cases hc : code = (255 : Byte)
    · exact ⟨[], true, by simp [scanOptionsF, hc], by simp⟩
    by_cases hz : code = (0 : Byte)
    · simp only [List.length_cons] at h
      obtain ⟨core, flag, he, hall⟩ := ih rest (by omega)
      exact ⟨core, flag, by simp only [scanOptionsF]; rw [if_neg hc, if_pos hz]; exact he, hall⟩
    rcases rest with _ | ⟨l1, rest2⟩
    · exact ⟨[], false, by simp [scanOptionsF, hc, hz], by simp⟩
    by_cases htr : rest2.length < l1.val
    · refine ⟨[], false, ?_, by simp⟩
      simp only [scanOptionsF]
      rw [if_neg hc, if_neg hz, if_pos htr]
      rfl
    · simp only [List.length_cons] at h
      obtain ⟨core, flag, he, hall⟩ := ih (rest2.drop l1.val) (by simp only [List.length_drop]; omega)
      refine ⟨DhcpOption.parseOpt code (rest2.take l1.val) :: core, flag, ?_, ?_⟩
      · simp only [scanOptionsF]
        rw [if_neg hc, if_neg hz, if_neg htr, he]
        rfl
      · intro o ho
        rcases List.mem_cons.mp ho with rfl | ho'
        · refine ⟨parseOpt_ne_end _ _, parseOpt_good _ _ ?_ ?_ ?_⟩
          · exact fun hv => hz (Fin.ext hv)
          · exact fun hv => hc (Fin.ext hv)
          · have := l1.isLt
            simp only [List.length_take]
            omega
        · exact hall o ho'

theorem scanOptions_inv (l : List Byte) :
    ∃ (core : List DhcpOption) (flag : Bool), scanOptions l =
        core ++ (if flag then [DhcpOption.endMarker] else []) ∧
      ∀ o ∈ core, o ≠ DhcpOption.endMarker ∧ ParsedGood o :=
  scanOptionsF_inv l.length l (le_refl _)

/-- The option list with the End marker appended when it is not already
terminated by one. -/
def withEnd (os : List DhcpOption) : List DhcpOption :=
  if os.getLast? = some DhcpOption.endMarker then os else os ++ [DhcpOption.endMarker]

theorem withEnd_decomp (core : List DhcpOption) (flag : Bool)
    (hcore : ∀ o ∈ core, o ≠ DhcpOption.endMarker) :
    withEnd (core ++ (if flag then [DhcpOption.endMarker] else [])) =
      core ++ [DhcpOption.endMarker] := by
  cases flag
  · show withEnd (core ++ []) = core ++ [DhcpOption.endMarker]
    rw [List.append_nil, withEnd, if_neg]
    intro hlast
    rcases List.getLast?_eq_some_iff.mp hlast with ⟨l', hl'⟩
    exact hcore DhcpOption.endMarker (hl' ▸ by simp) rfl
  · show withEnd (core ++ [DhcpOption.endMarker]) = core ++ [DhcpOption.endMarker]
    rw [withEnd, if_pos (List.getLast?_concat _)]

theorem encode_withEnd (os : List DhcpOption) (core : List DhcpOption) (flag : Bool)
    (hos : os = core ++ (if flag then [DhcpOption.endMarker] else [])) :
    ((os.map DhcpOption.encodeOpt).flatten) = ((core.map DhcpOption.encodeOpt).flatten) := by
  subst hos
  cases flag <;> simp [DhcpOption.encodeOpt]

/-- Everything `DhcpPacket::parse` guarantees about an accepted packet:
bounded header fields and a well-shaped option list. -/
theorem parse_ok_inv {data : List Byte} {p : DhcpPacket}
    (h : DhcpPacket.parse data = .ok p) :
    p.xid < 2 ^ 32 ∧ p.secs < 2 ^ 16 ∧ p.flags < 2 ^ 16 ∧
    ∃ (core : List DhcpOption) (flag : Bool),
      p.options = core ++ (if flag then [DhcpOption.endMarker] else []) ∧
      ∀ o ∈ core, o ≠ DhcpOption.endMarker ∧ ParsedGood o := by
  unfold DhcpPacket.parse at h
  split at h
  · exact absurd h (by simp)
  · split at h
    · injection h with hp
      subst hp
      refine ⟨be32_lt _ _ _ _, be16_lt _ _, be16_lt _ _, ?_⟩
      dsimp only
      split
      · exact scanOptions_inv _
      · exact ⟨[], false, by simp, by simp⟩
    · exact absurd h (by simp)

/-- Re-parsing a serialized accepted packet: the header fields come
back exactly and the options are the re-scan of the re-encoded list. -/
theorem parse_toBytes (p : DhcpPacket) (hx : p.xid < 2 ^ 32) (hs : p.secs < 2 ^ 16)
    (hf : p.flags < 2 ^ 16) :
    DhcpPacket.parse p.toBytes =
      .ok { p with options :=
        scanOptions ((p.options.map DhcpOption.encodeOpt).flatten ++ [255]) } := by
  obtain ⟨op, htype, hl, hops, xid, secs, flags, ci, yi, si, gi, ch, opts⟩ := p
  obtain ⟨c0, c1, c2, c3⟩ := ci
  obtain ⟨y0, y1, y2, y3⟩ := yi
  obtain ⟨v0, v1, v2, v3⟩ := si
  obtain ⟨g0, g1, g2, g3⟩ := gi
  obtain ⟨h0, h1, h2, h3, h4, h5⟩ := ch
  simp only at hx hs hf
  have hbytes : DhcpPacket.toBytes
      ⟨op, htype, hl, hops, xid, secs, flags, ⟨c0, c1, c2, c3⟩, ⟨y0, y1, y2, y3⟩,
        ⟨v0, v1, v2, v3⟩, ⟨g0, g1, g2, g3⟩, ⟨h0, h1, h2, h3, h4, h5⟩, opts⟩ =
      op :: htype :: hl :: hops ::
      mkByte (xid / 16777216) :: mkByte (xid / 65536) :: mkByte (xid / 256) :: mkByte xid ::
      mkByte (secs / 256) :: mkByte secs :: mkByte (flags / 256) :: mkByte flags ::
      c0 :: c1 :: c2 :: c3 :: y0 :: y1 :: y2 :: y3 :: v0 :: v1 :: v2 :: v3 ::
      g0 :: g1 :: g2 :: g3 :: h0 :: h1 :: h2 :: h3 :: h4 :: h5 ::
      (List.replicate 202 (0 : Byte) ++ ((99 : Byte) :: (130 : Byte) :: (83 : Byte) :: (99 : Byte) ::
        ((opts.map DhcpOption.encodeOpt).flatten ++ [255]))) := by
    simp [DhcpPacket.toBytes, u32be, u16be, Ipv4.octets, MacAddress.octets, magicCookie]
  rw [hbytes]
  rw [DhcpPacket.parse.eq_def]
  rw [if_neg (by
    simp only [List.length_cons, List.length_append, List.length_replicate]
    omega)]
  dsimp only
  have hxid : be32 (mkByte (xid / 16777216)) (mkByte (xid / 65536)) (mkByte (xid / 256))
      (mkByte xid) = xid := be32_u32be xid hx _ _ _ _ rfl
  have hsecs : be16 (mkByte (secs / 256)) (mkByte secs) = secs := be16_u16be secs hs _ _ rfl
  have hflags : be16 (mkByte (flags / 256)) (mkByte flags) = flags := be16_u16be flags hf _ _ rfl
  have hdrop202 : (List.replicate 202 (0 : Byte) ++ ((99 : Byte) :: (130 : Byte) :: (83 : Byte) ::
      (99 : Byte) :: ((opts.map DhcpOption.encodeOpt).flatten ++ [255]))).drop 202 =
      (99 : Byte) :: (130 : Byte) :: (83 : Byte) :: (99 : Byte) ::
        ((opts.map DhcpOption.encodeOpt).flatten ++ [255]) :=
    List.drop_left' (by simp)
  have hcookie : ((List.replicate 202 (0 : Byte) ++ ((99 : Byte) :: (130 : Byte) :: (83 : Byte) ::
      (99 : Byte) :: ((opts.map DhcpOption.encodeOpt).flatten ++ [255]))).drop 202).take 4 =
      magicCookie := by
    rw [hdrop202]
    rfl
  have hdrop206 : (List.replicate 202 (0 : Byte) ++ ((99 : Byte) :: (130 : Byte) :: (83 : Byte) ::
      (99 : Byte) :: ((opts.map DhcpOption.encodeOpt).flatten ++ [255]))).drop 206 =
      (opts.map DhcpOption.encodeOpt).flatten ++ [255] := by
    rw [show (206 : Nat) = 202 + 4 from rfl, ← List.drop_drop, hdrop202]
    rfl
  rw [if_pos ⟨by simp only [List.length_cons, List.length_append, List.length_replicate]; omega,
    hcookie⟩]
  rw [hxid, hsecs, hflags, hdrop206]

/-- The UTF-8 payloads of the text options (DomainName, Hostname) of an
option list. -/
def textPayloads (os : List DhcpOption) : List (List Byte) :=
  os.filterMap fun o =>
    match o with
    | .domainName s => some s
    | .hostname s => some s
    | _ => none

/-- Decode, then encode, then decode again: the header fields are
reproduced exactly; the option list is reproduced up to appending the End
marker when the first decode did not record one; and this packet is a true
fixed point of encode-then-decode.  The text-length hypothesis excludes
re-encoded text payloads longer than 255 bytes, whose length byte is
truncated by the `as u8` cast. -/
theorem parse_encode_decode (data : List Byte) (p₁ : DhcpPacket)
    (h : DhcpPacket.parse data = .ok p₁)
    (htext : ∀ s ∈ textPayloads p₁.options, s.length ≤ 255) :
    DhcpPacket.parse p₁.toBytes = .ok { p₁ with options := withEnd p₁.options } ∧
    DhcpPacket.toBytes { p₁ with options := withEnd p₁.options } = p₁.toBytes ∧
    DhcpPacket.parse (DhcpPacket.toBytes { p₁ with options := withEnd p₁.options }) =
      .ok { p₁ with options := withEnd p₁.options } := by
  obtain ⟨hx, hs, hf, core, flag, hopts, hcore⟩ := parse_ok_inv h
  have hcanon : ∀ o ∈ core, ParsedGood o ∧ textOk o := by
    intro o ho
    refine ⟨(hcore o ho).2, ?_⟩
    have hmem : o ∈ p₁.options := by
      rw [hopts]
      exact List.mem_append_left _ ho
    cases o
    case domainName s =>
      exact htext s (List.mem_filterMap.mpr ⟨_, hmem, rfl⟩)
    case hostname s =>
      exact htext s (List.mem_filterMap.mpr ⟨_, hmem, rfl⟩)
    all_goals trivial
  have henc : (p₁.options.map DhcpOption.encodeOpt).flatten =
      (core.map DhcpOption.encodeOpt).flatten := encode_withEnd _ _ _ hopts
  have hscan : scanOptions ((p₁.options.map DhcpOption.encodeOpt).flatten ++ [255]) =
      core ++ [DhcpOption.endMarker] := by
    rw [henc]
    exact scan_encode_list core hcanon
  have hwe : withEnd p₁.options = core ++ [DhcpOption.endMarker] := by
    rw [hopts]
    exact withEnd_decomp core flag (fun o ho => (hcore o ho).1)
  have h1 : DhcpPacket.parse p₁.toBytes = .ok { p₁ with options := withEnd p₁.options } := by
    rw [parse_toBytes p₁ hx hs hf, hscan, hwe]
  have hencEnd : ((core ++ [DhcpOption.endMarker]).map DhcpOption.encodeOpt).flatten =
      (core.map DhcpOption.encodeOpt).flatten := by
    simp [DhcpOption.encodeOpt]
  have h2 : DhcpPacket.toBytes { p₁ with options := withEnd p₁.options } = p₁.toBytes := by
    simp only [DhcpPacket.toBytes]
    rw [hwe, hencEnd, henc]
  exact ⟨h1, h2, by rw [h2, h1]⟩

/-! ### Server-side data model (crates/dhcp-server: models.rs, config.rs) -/

/-- models.rs `Subnet`.  `netmask` is the prefix length (u8); strings are
UTF-8 byte lists. -/
structure Subnet where
  id : Option Int
  network : Ipv4
  netmask : Byte
  gateway : Ipv4
  dns_servers : List Ipv4
  domain_name : Option (List Byte)
  enabled : Bool
deriving DecidableEq

/-- models.rs `DynamicRange`. -/
structure DynamicRange where
  id : Option Int
  subnet_id : Int
  range_start : Ipv4
  range_end : Ipv4
  enabled : Bool
deriving DecidableEq

/-- models.rs `StaticIP`.  `mac_address` is the stored text column. -/
structure StaticIP where
  id : Option Int
  subnet_id : Int
  mac_address : List Byte
  ip_address : Ipv4
  hostname : Option (List Byte)
  enabled : Bool
deriving DecidableEq

/-- models.rs `Lease`. -/
structure Lease where
  id : Option Int
  subnet_id : Int
  mac_address : List Byte
  ip_address : Ipv4
  lease_start : Int
  lease_end : Int
  hostname : Option (List Byte)
  active : Bool
deriving DecidableEq

/-- config.rs `DhcpConfig`. -/
structure DhcpConfig where
  default_lease_time : Nat
  max_lease_time : Nat
deriving DecidableEq

/-- config.rs `Config`, restricted to the fields the protocol engine
reads (the listen addresses, database path and API block never reach the
packet handlers). -/
structure Config where
  dhcp : DhcpConfig
deriving DecidableEq

/-- The SQLite tables of db.rs as in-memory lists in row order. -/
structure Db where
  subnets : List Subnet
  static_ips : List StaticIP
  ranges : List DynamicRange
  leases : List Lease
deriving DecidableEq

/-- db.rs `get_static_ip_by_mac`: first row with matching text MAC and
`enabled = 1`. -/
def Db.getStaticIpByMac (db : Db) (mac : List Byte) : Option StaticIP :=
  db.static_ips.find? fun s => decide (s.mac_address = mac) && s.enabled

/-- db.rs `get_subnet`: the row with the given id. -/
def Db.getSubnet (db : Db) (i : Int) : Option Subnet :=
  db.subnets.find? fun s => decide (s.id = some i)

/-- The filter of db.rs `get_active_lease`: matching MAC, `active = 1`,
`lease_end > now`. -/
def Db.activeLeaseRows (db : Db) (mac : List Byte) (now : Int) : List Lease :=
  db.leases.filter fun l => decide (l.mac_address = mac) && l.active && decide (now < l.lease_end)

/-- `ORDER BY lease_end DESC LIMIT 1`: a row with maximal `lease_end`
among the matching rows (the first such row, which is what the SQL
returns up to SQLite's tie order). -/
def pickLatest (rows : List Lease) : Option Lease :=
  rows.foldl (fun acc l =>
    match acc with
    | none => some l
    | some m => if m.lease_end < l.lease_end then some l else some m) none

/-- db.rs `get_active_lease`. -/
def Db.getActiveLease (db : Db) (mac : List Byte) (now : Int) : Option Lease :=
  pickLatest (db.activeLeaseRows mac now)

/-- db.rs `expire_lease`: `UPDATE leases SET active = 0 WHERE id = ?`. -/
def Db.expireLease (db : Db) (i : Int) : Db :=
  { db with leases := db.leases.map fun l =>
      if l.id = some i then { l with active := false } else l }

/-! ### The DHCP request handlers (dhcp/server.rs)

`create_offer`/`create_ack` can panic inside `netmask_from_prefix` when
the stored prefix length exceeds 32 (`32 - prefix` underflows and the
shift overflows, in a build with overflow checks); that possible panic is
modelled as `none`.  The handlers therefore return
`Option (Option DhcpPacket)`: the outer layer is the panic, the inner
layer the optional wire reply. -/

/-- dhcp/server.rs `netmask_from_prefix`; `none` models the arithmetic
panic for a prefix above 32. -/
def netmaskFromPrefixLen (p : Byte) : Option Ipv4 :=
  if p.val = 0 then some (Ipv4.ofU32 0)
  else if p.val ≤ 32 then some (Ipv4.ofU32 (((2 ^ 32 - 1) * 2 ^ (32 - p.val)) % 2 ^ 32))
  else none

/-- dhcp/server.rs `create_offer`. -/
def createOffer (request : DhcpPacket) (offeredIp : Ipv4) (subnet : Subnet)
    (config : Config) : Option DhcpPacket :=
  (netmaskFromPrefixLen subnet.netmask).map fun mask =>
    { DhcpPacket.new with
      op := 2
      xid := request.xid
      yiaddr := offeredIp
      chaddr := request.chaddr
      siaddr := subnet.gateway
      options :=
        [DhcpOption.messageType .offer,
         DhcpOption.serverIdentifier subnet.gateway,
         DhcpOption.leaseTime config.dhcp.default_lease_time,
         DhcpOption.subnetMask mask,
         DhcpOption.router [subnet.gateway],
         DhcpOption.dnsServer subnet.dns_servers] ++
        (match subnet.domain_name with
         | some d => [DhcpOption.domainName d]
         | none => []) }

/-- dhcp/server.rs `create_ack`.  The renewal time is `t / 2` and the
rebinding time `t * 7 / 8` in u32 arithmetic: the multiplication wraps
modulo 2^32 before the division. -/
def createAck (request : DhcpPacket) (assignedIp : Ipv4) (subnet : Subnet)
    (config : Config) : Option DhcpPacket :=
  (netmaskFromPrefixLen subnet.netmask).map fun mask =>
    { DhcpPacket.new with
      op := 2
      xid := request.xid
      yiaddr := assignedIp
      chaddr := request.chaddr
      siaddr := subnet.gateway
      options :=
        [DhcpOption.messageType .ack,
         DhcpOption.serverIdentifier subnet.gateway,
         DhcpOption.leaseTime config.dhcp.default_lease_time,
         DhcpOption.renewalTime (config.dhcp.default_lease_time / 2),
         DhcpOption.rebindingTime (config.dhcp.default_lease_time * 7 % 2 ^ 32 / 8),
         DhcpOption.subnetMask mask,
         DhcpOption.router [subnet.gateway],
         DhcpOption.dnsServer subnet.dns_servers] ++
        (match subnet.domain_name with
         | some d => [DhcpOption.domainName d]
         | none => []) }

/-- dhcp/server.rs `handle_discover`: static assignment first, then an
active lease; the dynamic-range branch is the source's
`TODO: Allocate new IP from dynamic range` and returns no reply. -/
def handleDiscover (packet : DhcpPacket) (config : Config) (db : Db) (now : Int) :
    Option (Option DhcpPacket) :=
  match db.getStaticIpByMac packet.chaddr.toText with
  | some staticIp =>
    match db.getSubnet staticIp.subnet_id with
    | some subnet => (createOffer packet staticIp.ip_address subnet config).map some
    | none => some none
  | none =>
    match db.getActiveLease packet.chaddr.toText now with
    | some lease =>
      match db.getSubnet lease.subnet_id with
      | some subnet => (createOffer packet lease.ip_address subnet config).map some
      | none => some none
    | none => some none

/-- The `find_map` over the options extracting the first
`RequestedIpAddress` in dhcp/server.rs `handle_request`. -/
def extractRequestedIp (packet : DhcpPacket) : Option Ipv4 :=
  packet.options.findSome? fun o =>
    match o with
    | .requestedIpAddress ip => some ip
    | _ => none

/-- dhcp/server.rs `handle_request`: Ack only when the requested address
equals the requester's own enabled static assignment; the dynamic branch
is the source's `TODO: Validate and create lease` and returns no reply
(no Nak is ever constructed). -/
def handleRequest (packet : DhcpPacket) (config : Config) (db : Db) :
    Option (Option DhcpPacket) :=
  match extractRequestedIp packet with
  | none => some none
  | some requestedIp =>
    match db.getStaticIpByMac packet.chaddr.toText with
    | some staticIp =>
      if staticIp.ip_address = requestedIp then
        match db.getSubnet staticIp.subnet_id with
        | some subnet => (createAck packet requestedIp subnet config).map some
        | none => some none
      else some none
    | none => some none

/-- dhcp/server.rs `handle_release`: expire the active lease of the
packet's MAC, if any; the reported address is never consulted. -/
def handleRelease (packet : DhcpPacket) (db : Db) (now : Int) : Db :=
  match db.getActiveLease packet.chaddr.toText now with
  | some lease =>
    match lease.id with
    | some i => db.expireLease i
    | none => db
  | none => db

/-- dhcp/server.rs `handle_packet`: the reply (if any) and the database
state afterwards.  A packet without a message type, and the Inform /
Offer / Ack / Nak / Decline kinds, produce no reply and no state change. -/
def handlePacket (packet : DhcpPacket) (config : Config) (db : Db) (now : Int) :
    Option (Option DhcpPacket) × Db :=
  match packet.getMessageType with
  | none => (some none, db)
  | some .discover => (handleDiscover packet config db now, db)
  | some .request => (handleRequest packet config db, db)
  | some .release => (some none, handleRelease packet db now)
  | some .inform => (some none, db)
  | some _ => (some none, db)

/-! ### Reply inspection helpers -/

/-- The wire reply of a handler result, if the handler neither panicked
nor stayed silent. -/
def wireReply (r : Option (Option DhcpPacket)) : Option DhcpPacket :=
  match r with
  | some (some p) => some p
  | _ => none

/-- Does a handler result reply with a Nak? -/
def repliesNak (r : Option (Option DhcpPacket)) : Bool :=
  match r with
  | some (some p) => decide (p.getMessageType = some .nak)
  | _ => false

/-- Does the (optional) reply carry the given option? -/
def optInReply (r : Option DhcpPacket) (o : DhcpOption) : Bool :=
  match r with
  | some p => decide (o ∈ p.options)
  | none => false

/-! ### Test fixtures for the concrete evaluations -/

/-- MAC `AA:BB:CC:DD:EE:FF`. -/
def macA : MacAddress := ⟨0xAA, 0xBB, 0xCC, 0xDD, 0xEE, 0xFF⟩

/-- MAC `11:22:33:44:55:66`. -/
def macB : MacAddress := ⟨0x11, 0x22, 0x33, 0x44, 0x55, 0x66⟩

/-- MAC `99:88:77:66:55:44`. -/
def macC : MacAddress := ⟨0x99, 0x88, 0x77, 0x66, 0x55, 0x44⟩

/-- Address `192.168.1.50`. -/
def ip50 : Ipv4 := ⟨192, 168, 1, 50⟩

/-- The subnet `192.168.1.0/24` with gateway `192.168.1.1`. -/
def subnet1 : Subnet :=
  { id := some 1, network := ⟨192, 168, 1, 0⟩, netmask := 24, gateway := ⟨192, 168, 1, 1⟩,
    dns_servers := [⟨192, 168, 1, 1⟩], domain_name := none, enabled := true }

/-- The enabled dynamic range `192.168.1.100`–`192.168.1.150` of subnet 1. -/
def range1 : DynamicRange :=
  { id := some 1, subnet_id := 1, range_start := ⟨192, 168, 1, 100⟩,
    range_end := ⟨192, 168, 1, 150⟩, enabled := true }

/-- The enabled static assignment `AA:BB:CC:DD:EE:FF` to `192.168.1.50`. -/
def staticA : StaticIP :=
  { id := some 1, subnet_id := 1, mac_address := macA.toText, ip_address := ip50,
    hostname := none, enabled := true }

/-- The default configuration: default lease 86400 s, maximum 604800 s. -/
def cfg0 : Config := ⟨⟨86400, 604800⟩⟩

/-- A Discover packet from the given MAC. -/
def discoverPacket (m : MacAddress) : DhcpPacket :=
  { DhcpPacket.new with
    xid := 12345
    chaddr := m
    options := [DhcpOption.messageType .discover] }

/-- A Request packet from the given MAC asking for the given address. -/
def requestPacket (m : MacAddress) (ip : Ipv4) : DhcpPacket :=
  { DhcpPacket.new with
    xid := 67890
    chaddr := m
    options := [DhcpOption.messageType .request, DhcpOption.requestedIpAddress ip] }

/-- A Release packet from the given MAC. -/
def releasePacket (m : MacAddress) : DhcpPacket :=
  { DhcpPacket.new with
    xid := 99999
    chaddr := m
    options := [DhcpOption.messageType .release] }

/-- The database with one subnet and one enabled dynamic range, no static
assignments and no leases. -/
def db1 : Db := { subnets := [subnet1], static_ips := [], ranges := [range1], leases := [] }

/-- The database with one subnet and the static assignment `staticA`. -/
def db2 : Db := { subnets := [subnet1], static_ips := [staticA], ranges := [], leases := [] }

/-! ### Claim C1 -/

/-- C1: a Discover from a MAC with no static assignment and no active
lease, in a database whose subnet has an enabled dynamic range with free
addresses (the tables of statics and leases are empty, and the range
neither starts at the network address nor at the gateway), is answered
with no Offer at all: `handle_discover` ends in
`TODO: Allocate new IP from dynamic range` and returns `None`, so the
allocation the claim describes never happens. -/
theorem claim1_discover_dynamic_unimplemented :
    handleDiscover (discoverPacket macC) cfg0 db1 1000 = some none ∧
    db1.static_ips = [] ∧ db1.leases = [] ∧ db1.ranges = [range1] ∧
    range1.enabled = true ∧ range1.subnet_id = 1 ∧ subnet1.id = some 1 ∧
    range1.range_start ≠ subnet1.gateway ∧ range1.range_start ≠ subnet1.network := by
  refine ⟨by decide, rfl, rfl, rfl, rfl, rfl, rfl, by decide, by decide⟩

/-! ### Claim C2 -/

/-- C2, counterexample: a Request from `11:22:33:44:55:66` for
`192.168.1.50`, which is the enabled static address of the different MAC
`AA:BB:CC:DD:EE:FF` in a resolvable subnet, is answered with silence,
not with a Nak. -/
theorem claim2_counterexample :
    repliesNak (handleRequest (requestPacket macB ip50) cfg0 db2) = false ∧
    handleRequest (requestPacket macB ip50) cfg0 db2 = some none ∧
    db2.getStaticIpByMac macA.toText = some staticA ∧
    staticA.ip_address = ip50 ∧
    macB.toText ≠ macA.toText ∧
    db2.getSubnet staticA.subnet_id = some subnet1 := by
  refine ⟨by decide, by decide, by decide, rfl, by decide, by decide⟩

/-- C2, amended: whenever the requested address does not match the
requester's own enabled static assignment (in particular whenever it is a
different MAC's static address), `handle_request` produces no reply at
all — never an Ack, but also never a Nak. -/
theorem claim2_request_nonmatching_silent (db : Db) (cfg : Config)
    (packet : DhcpPacket) (ip : Ipv4)
    (hreq : extractRequestedIp packet = some ip)
    (hstatic : ∀ s, db.getStaticIpByMac packet.chaddr.toText = some s → s.ip_address ≠ ip) :
    handleRequest packet cfg db = some none := by
  unfold handleRequest
  rw [hreq]
  cases hs : db.getStaticIpByMac packet.chaddr.toText with
  | none => rfl
  | some s =>
    dsimp only
    rw [if_neg (hstatic s hs)]

theorem claim2_witness :
    handleRequest (requestPacket macB ip50) cfg0 db2 = some none :=
  claim2_request_nonmatching_silent db2 cfg0 (requestPacket macB ip50) ip50 (by decide)
    (fun s hs => by
      rw [show db2.getStaticIpByMac (requestPacket macB ip50).chaddr.toText = none from by decide]
        at hs
      cases hs)

/-! ### Claim C4 -/

/-- C4: `DhcpPacket::parse` fails with the TooSmall error exactly on
inputs shorter than 240 bytes; on longer inputs that error never occurs.
The embedding is a total function, reflecting that the source's reads are
all bounds-checked behind the same length guard and cannot panic. -/
theorem claim4_tooSmall_iff (data : List Byte) :
    DhcpPacket.parse data = .error .tooSmall ↔ data.length < 240 := by
  unfold DhcpPacket.parse
  split
  case isTrue h => simp [h]
  case isFalse h =>
    constructor
    · intro he
      exfalso
      split at he <;> simp_all
    · intro hlt
      exact absurd hlt h

/-! ### Claim C8 -/

/-- C8: `from_u8` inverts `to_u8` on the eight message kinds and rejects
0, 9 and 255; a message-type option carrying a rejected byte parses to an
opaque Unknown option, and a packet without any message type gets no
reply and leaves the database untouched. -/
theorem claim8_messageType :
    (∀ mt : MessageType, MessageType.fromU8 mt.toU8 = some mt) ∧
    (MessageType.fromU8 0 = none ∧ MessageType.fromU8 9 = none ∧
      MessageType.fromU8 255 = none) ∧
    (∀ v : Byte, MessageType.fromU8 v = none →
      DhcpOption.parseOpt 53 [v] = .unknown 53 [v]) ∧
    (∀ (p : DhcpPacket) (cfg : Config) (db : Db) (now : Int),
      p.getMessageType = none → handlePacket p cfg db now = (some none, db)) := by
  refine ⟨fromU8_toU8, ⟨rfl, rfl, rfl⟩, ?_, ?_⟩
  · intro v h
    show (match MessageType.fromU8 v with
      | some mt => DhcpOption.messageType mt
      | none => DhcpOption.unknown 53 [v]) = DhcpOption.unknown 53 [v]
    rw [h]
  · intro p cfg db now h
    unfold handlePacket
    rw [h]

/-- A packet whose only message-type option carries the invalid byte 0. -/
def invalidMtPacket : DhcpPacket :=
  { DhcpPacket.new with
    chaddr := macC
    options := [DhcpOption.unknown 53 [0]] }

theorem claim8_witness :
    MessageType.fromU8 (MessageType.toU8 .discover) = some .discover ∧
    DhcpOption.parseOpt 53 [0] = .unknown 53 [0] ∧
    handlePacket invalidMtPacket cfg0 db1 0 = (some none, db1) :=
  ⟨claim8_messageType.1 .discover, claim8_messageType.2.2.1 0 (by decide),
    claim8_messageType.2.2.2 invalidMtPacket cfg0 db1 0 (by decide)⟩

/-! ### Claim C3 -/

/-- The packet decoded from 240 zero bytes. -/
def zeroPacket : DhcpPacket :=
  { op := 0, htype := 0, hlen := 0, hops := 0, xid := 0, secs := 0, flags := 0,
    ciaddr := ⟨0, 0, 0, 0⟩, yiaddr := ⟨0, 0, 0, 0⟩, siaddr := ⟨0, 0, 0, 0⟩,
    giaddr := ⟨0, 0, 0, 0⟩, chaddr := ⟨0, 0, 0, 0, 0, 0⟩, options := [] }

/-- C3, counterexample: 240 zero bytes are accepted by Decode with an
empty option list, but Decode of Encode of that packet has the option
list `[End]` — `to_bytes` always appends an End byte and a second parse
records it — so `Decode(Encode(Decode(bytes)))` differs from
`Decode(bytes)` and the decoded packets are not equivalent as stated. -/
theorem claim3_counterexample :
    DhcpPacket.parse (List.replicate 240 (0 : Byte)) = .ok zeroPacket ∧
    DhcpPacket.parse zeroPacket.toBytes =
      .ok { zeroPacket with options := [DhcpOption.endMarker] } ∧
    ({ zeroPacket with options := [DhcpOption.endMarker] } : DhcpPacket) ≠ zeroPacket := by
  refine ⟨by decide, by decide, by decide⟩

/-- C3, amended: for any accepted input whose decoded text options are at
most 255 bytes long (longer ones re-encode with a truncated length byte),
encode-then-decode reproduces the packet except that the option list
gains a trailing End marker when the first decode did not record one; the
resulting packet is a true fixed point: its encoding equals the first
re-encoding byte for byte, and decoding that encoding reproduces it
exactly. -/
theorem claim3_roundtrip (data : List Byte) (p₁ : DhcpPacket)
    (h : DhcpPacket.parse data = .ok p₁)
    (htext : ∀ s ∈ textPayloads p₁.options, s.length ≤ 255) :
    DhcpPacket.parse p₁.toBytes = .ok { p₁ with options := withEnd p₁.options } ∧
    DhcpPacket.toBytes { p₁ with options := withEnd p₁.options } = p₁.toBytes ∧
    DhcpPacket.parse (DhcpPacket.toBytes { p₁ with options := withEnd p₁.options }) =
      .ok { p₁ with options := withEnd p₁.options } :=
  parse_encode_decode data p₁ h htext

/-- The bytes of a Discover packet with options, for the round-trip
witness. -/
def c3wData : List Byte :=
  List.replicate 236 (0 : Byte) ++ magicCookie ++ [53, 1, 1, 12, 3, 97, 98, 99, 255]

/-- The packet decoded from `c3wData`. -/
def c3wPacket : DhcpPacket :=
  { zeroPacket with
    options := [DhcpOption.messageType .discover, DhcpOption.hostname [97, 98, 99],
      DhcpOption.endMarker] }

theorem claim3_witness :
    DhcpPacket.parse c3wPacket.toBytes =
      .ok { c3wPacket with options := withEnd c3wPacket.options } ∧
    DhcpPacket.toBytes { c3wPacket with options := withEnd c3wPacket.options } =
      c3wPacket.toBytes ∧
    DhcpPacket.parse (DhcpPacket.toBytes { c3wPacket with options := withEnd c3wPacket.options }) =
      .ok { c3wPacket with options := withEnd c3wPacket.options } :=
  claim3_roundtrip c3wData c3wPacket (by decide) (by decide)

/-! ### Claim C5 -/

/-- A configuration whose default lease time exceeds its maximum: nothing
in config.rs or the engine forbids or checks this. -/
def cfgBad : Config := ⟨⟨2, 1⟩⟩

/-- C5, counterexample: with default lease time 2 and maximum lease time
1, the Offer for a static Discover carries a LeaseTime option of 2,
exceeding the configured maximum — the engine never consults
`max_lease_time`. -/
theorem claim5_counterexample :
    optInReply (wireReply (handleDiscover (discoverPacket macA) cfgBad db2 0))
      (DhcpOption.leaseTime 2) = true ∧
    ¬ 2 ≤ cfgBad.dhcp.max_lease_time := by
  refine ⟨by decide, by decide⟩

/-- C5, amended: every LeaseTime option attached to an Offer or Ack
carries exactly the configured default lease time; it is bounded by the
configured maximum only under the extra assumption that the default does
not exceed the maximum, which the code never checks. -/
theorem claim5_leaseTime_default (req : DhcpPacket) (ip : Ipv4) (subnet : Subnet)
    (cfg : Config) (r : DhcpPacket) (t : Nat)
    (h : createOffer req ip subnet cfg = some r ∨ createAck req ip subnet cfg = some r)
    (hmem : DhcpOption.leaseTime t ∈ r.options) :
    t = cfg.dhcp.default_lease_time ∧
    (cfg.dhcp.default_lease_time ≤ cfg.dhcp.max_lease_time →
      t ≤ cfg.dhcp.max_lease_time) := by
  have ht : t = cfg.dhcp.default_lease_time := by
    rcases h with h | h <;>
      obtain ⟨mask, hmask, rfl⟩ := Option.map_eq_some'.mp h <;>
      rcases hdom : subnet.domain_name with _ | d <;>
      simp [hdom] at hmem <;>
      exact hmem
  exact ⟨ht, fun hle => ht ▸ hle⟩

/-- The Offer constructed for `staticA` under `cfg0`. -/
def offerA : DhcpPacket :=
  { DhcpPacket.new with
    op := 2
    xid := 12345
    yiaddr := ip50
    chaddr := macA
    siaddr := ⟨192, 168, 1, 1⟩
    options := [DhcpOption.messageType .offer, DhcpOption.serverIdentifier ⟨192, 168, 1, 1⟩,
      DhcpOption.leaseTime 86400, DhcpOption.subnetMask ⟨255, 255, 255, 0⟩,
      DhcpOption.router [⟨192, 168, 1, 1⟩], DhcpOption.dnsServer [⟨192, 168, 1, 1⟩]] }

theorem claim5_witness :
    86400 = cfg0.dhcp.default_lease_time ∧
    (cfg0.dhcp.default_lease_time ≤ cfg0.dhcp.max_lease_time →
      86400 ≤ cfg0.dhcp.max_lease_time) :=
  claim5_leaseTime_default (discoverPacket macA) ip50 subnet1 cfg0 offerA 86400
    (Or.inl (by decide)) (by decide)

/-! ### Claim C6 -/

/-- A configuration whose default lease time is the largest u32. -/
def cfg6 : Config := ⟨⟨4294967295, 604800⟩⟩

/-- C6, counterexample: with default lease time `t = 4294967295`, the Ack
produced for the static Request carries RebindingTime
`t * 7 % 2^32 / 8 = 536870911`, not the exact seven-eighths
`7 t / 8 = 3758096383`: the u32 multiplication `t * 7` wraps. -/
theorem claim6_counterexample :
    optInReply (wireReply (handleRequest (requestPacket macA ip50) cfg6 db2))
      (DhcpOption.rebindingTime 536870911) = true ∧
    536870911 ≠ 4294967295 * 7 / 8 := by
  refine ⟨by decide, by decide⟩

/-- C6, amended: every Ack (the code produces them only on the static
path) carries RenewalTime `t / 2` exactly, and RebindingTime
`t * 7 % 2^32 / 8`, which equals the exact `7 t / 8` precisely when
`7 t` does not overflow u32. -/
theorem claim6_ack_times (req : DhcpPacket) (ip : Ipv4) (subnet : Subnet)
    (cfg : Config) (r : DhcpPacket)
    (h : createAck req ip subnet cfg = some r) :
    DhcpOption.renewalTime (cfg.dhcp.default_lease_time / 2) ∈ r.options ∧
    DhcpOption.rebindingTime (cfg.dhcp.default_lease_time * 7 % 2 ^ 32 / 8) ∈ r.options ∧
    (cfg.dhcp.default_lease_time * 7 < 2 ^ 32 →
      DhcpOption.rebindingTime (cfg.dhcp.default_lease_time * 7 / 8) ∈ r.options) := by
  obtain ⟨mask, hmask, rfl⟩ := Option.map_eq_some'.mp h
  refine ⟨by simp, by simp, fun hlt => ?_⟩
  rw [show cfg.dhcp.default_lease_time * 7 / 8 =
    cfg.dhcp.default_lease_time * 7 % 2 ^ 32 / 8 from by rw [Nat.mod_eq_of_lt hlt]]
  simp

/-- The Ack constructed for `staticA` under `cfg0`. -/
def ackA : DhcpPacket :=
  { DhcpPacket.new with
    op := 2
    xid := 67890
    yiaddr := ip50
    chaddr := macA
    siaddr := ⟨192, 168, 1, 1⟩
    options := [DhcpOption.messageType .ack, DhcpOption.serverIdentifier ⟨192, 168, 1, 1⟩,
      DhcpOption.leaseTime 86400, DhcpOption.renewalTime 43200,
      DhcpOption.rebindingTime 75600, DhcpOption.subnetMask ⟨255, 255, 255, 0⟩,
      DhcpOption.router [⟨192, 168, 1, 1⟩], DhcpOption.dnsServer [⟨192, 168, 1, 1⟩]] }

theorem claim6_witness :
    DhcpOption.renewalTime (cfg0.dhcp.default_lease_time / 2) ∈ ackA.options ∧
    DhcpOption.rebindingTime (cfg0.dhcp.default_lease_time * 7 % 2 ^ 32 / 8) ∈ ackA.options ∧
    (cfg0.dhcp.default_lease_time * 7 < 2 ^ 32 →
      DhcpOption.rebindingTime (cfg0.dhcp.default_lease_time * 7 / 8) ∈ ackA.options) :=
  claim6_ack_times (requestPacket macA ip50) ip50 subnet1 cfg0 ackA (by decide)

/-! ### Claim C7 -/

/-- An active lease of MAC `11:22:33:44:55:66` ending at time 2000. -/
def leaseB1 : Lease :=
  { id := some 1, subnet_id := 1, mac_address := macB.toText,
    ip_address := ⟨192, 168, 1, 100⟩, lease_start := 0, lease_end := 2000,
    hostname := none, active := true }

/-- A second active lease of the same MAC ending at time 3000. -/
def leaseB2 : Lease :=
  { id := some 2, subnet_id := 1, mac_address := macB.toText,
    ip_address := ⟨192, 168, 1, 101⟩, lease_start := 0, lease_end := 3000,
    hostname := none, active := true }

/-- A database holding both leases of `11:22:33:44:55:66`. -/
def db7 : Db := { subnets := [subnet1], static_ips := [], ranges := [], leases := [leaseB1, leaseB2] }

/-- A database holding only the single lease `leaseB1`. -/
def db7w : Db := { subnets := [subnet1], static_ips := [], ranges := [], leases := [leaseB1] }

/-- C7, counterexample: when the MAC holds two active lease records (a
state the lease table does not forbid), Release expires only the one
`get_active_lease` returned (the latest-ending), and a subsequent
`get_active_lease` still returns a lease rather than nothing. -/
theorem claim7_counterexample :
    ((handlePacket (releasePacket macB) cfg0 db7 1000).2.getActiveLease
      macB.toText 1000).isSome = true ∧
    (db7.getActiveLease macB.toText 1000).isSome = true ∧
    (handlePacket (releasePacket macB) cfg0 db7 1000).1 = some none := by
  refine ⟨by decide, by decide, by decide⟩

/-- C7, amended: a Release produces no wire reply and deactivates (never
deletes) the lease returned by `get_active_lease`; a subsequent
`get_active_lease` for the MAC returns nothing provided that lease was
the MAC's only active lease record. -/
theorem claim7_release (db : Db) (cfg : Config) (packet : DhcpPacket) (now : Int)
    (lease : Lease)
    (hmt : packet.getMessageType = some .release)
    (hlease : db.getActiveLease packet.chaddr.toText now = some lease)
    (hid : lease.id.isSome = true)
    (huniq : ∀ l ∈ db.leases,
      (l.mac_address = packet.chaddr.toText ∧ l.active = true ∧ now < l.lease_end) →
      l.id = lease.id) :
    (handlePacket packet cfg db now).1 = some none ∧
    (handlePacket packet cfg db now).2.leases.length = db.leases.length ∧
    (handlePacket packet cfg db now).2.getActiveLease packet.chaddr.toText now = none := by
  obtain ⟨i, hi⟩ := Option.isSome_iff_exists.mp hid
  have hhp : handlePacket packet cfg db now = (some none, db.expireLease i) := by
    unfold handlePacket
    rw [hmt]
    dsimp only
    unfold handleRelease
    rw [hlease]
    dsimp only
    rw [hi]
  rw [hhp]
  refine ⟨rfl, by simp [Db.expireLease], ?_⟩
  unfold Db.getActiveLease
  have hrows : (db.expireLease i).activeLeaseRows packet.chaddr.toText now = [] := by
    unfold Db.activeLeaseRows Db.expireLease
    dsimp only
    rw [List.filter_eq_nil_iff]
    intro l' hl'
    obtain ⟨l, hlmem, rfl⟩ := List.mem_map.mp hl'
    by_cases hcase : l.id = some i
    · rw [if_pos hcase]
      simp
    · rw [if_neg hcase]
      intro hp
      simp only [Bool.and_eq_true, decide_eq_true_eq] at hp
      exact hcase ((huniq l hlmem ⟨hp.1.1, hp.1.2, hp.2⟩).trans hi)
  rw [hrows]
  rfl

theorem claim7_witness :
    (handlePacket (releasePacket macB) cfg0 db7w 1000).1 = some none ∧
    (handlePacket (releasePacket macB) cfg0 db7w 1000).2.leases.length =
      db7w.leases.length ∧
    (handlePacket (releasePacket macB) cfg0 db7w 1000).2.getActiveLease
      (releasePacket macB).chaddr.toText 1000 = none :=
  claim7_release db7w cfg0 (releasePacket macB) 1000 leaseB1 (by decide) (by decide)
    (by decide) (by decide)

/-! ### Claim C9 -/

theorem netmask_isSome (p : Byte) :
    (netmaskFromPrefixLen p).isSome = true ↔ p.val ≤ 32 := by
  unfold netmaskFromPrefixLen
  split_ifs with h1 h2
  · simp [h1]
  · simp [h2]
  · simp
    omega

/-- C9: for a prefix length of at most 32 the netmask is the 32-bit value
`2^32 - 2^(32-p)`, i.e. the mask with exactly the `p` most significant
bits set; for a prefix above 32 the function has no value — `32 - prefix`
underflows and the shift amount overflows, an arithmetic panic in a
checked build — so Offer/Ack construction succeeds exactly when the
subnet's stored prefix length is at most 32. -/
theorem claim9_netmask :
    (∀ p : Byte, p.val ≤ 32 →
      netmaskFromPrefixLen p = some (Ipv4.ofU32 (2 ^ 32 - 2 ^ (32 - p.val)))) ∧
    (∀ p : Byte, 32 < p.val → netmaskFromPrefixLen p = none) ∧
    (∀ (req : DhcpPacket) (ip : Ipv4) (subnet : Subnet) (cfg : Config),
      (createOffer req ip subnet cfg).isSome = true ↔ subnet.netmask.val ≤ 32) ∧
    (∀ (req : DhcpPacket) (ip : Ipv4) (subnet : Subnet) (cfg : Config),
      (createAck req ip subnet cfg).isSome = true ↔ subnet.netmask.val ≤ 32) := by
  refine ⟨?_, ?_, ?_, ?_⟩
  · intro p hp
    unfold netmaskFromPrefixLen
    by_cases h0 : p.val = 0
    · rw [if_pos h0]
      simp [h0]
    · rw [if_neg h0, if_pos hp]
      have h1 : 1 ≤ p.val := Nat.one_le_iff_ne_zero.mpr h0
      have harith : (2 ^ 32 - 1) * 2 ^ (32 - p.val) % 2 ^ 32 =
          2 ^ 32 - 2 ^ (32 - p.val) := by
        have hkle : 32 - p.val ≤ 31 := by omega
        have hKle : (2 : Nat) ^ (32 - p.val) ≤ 2 ^ 31 :=
          Nat.pow_le_pow_right (by norm_num) hkle
        have hK1 : 1 ≤ (2 : Nat) ^ (32 - p.val) := Nat.one_le_two_pow
        have h31 : (2 : Nat) ^ 31 < 2 ^ 32 := by norm_num
        have heq : (2 ^ 32 - 1) * 2 ^ (32 - p.val) =
            (2 ^ 32 - 2 ^ (32 - p.val)) + 2 ^ 32 * (2 ^ (32 - p.val) - 1) := by
          omega
        rw [heq, Nat.add_mul_mod_self_left, Nat.mod_eq_of_lt (by omega)]
      rw [harith]
  · intro p h
    unfold netmaskFromPrefixLen
    rw [if_neg (by omega), if_neg (by omega)]
  · intro req ip subnet cfg
    unfold createOffer
    rw [Option.isSome_map']
    exact netmask_isSome _
  · intro req ip subnet cfg
    unfold createAck
    rw [Option.isSome_map']
    exact netmask_isSome _

theorem claim9_witness :
    netmaskFromPrefixLen 24 = some (Ipv4.ofU32 (2 ^ 32 - 2 ^ (32 - (24 : Byte).val))) ∧
    netmaskFromPrefixLen 33 = none ∧
    ((createOffer (discoverPacket macA) ip50 subnet1 cfg0).isSome = true ↔
      subnet1.netmask.val ≤ 32) ∧
    ((createAck (requestPacket macA ip50) ip50 subnet1 cfg0).isSome = true ↔
      subnet1.netmask.val ≤ 32) :=
  ⟨claim9_netmask.1 24 (by decide), claim9_netmask.2.1 33 (by decide),
    claim9_netmask.2.2.1 _ _ _ _, claim9_netmask.2.2.2 _ _ _ _⟩

/-! ### Claim C10 -/

/-- C10: for every packet value, `to_bytes` emits the 240-byte header
(magic cookie at offsets 236–239) followed by the serialized options and
exactly one appended End byte, so the output is always at least 241 bytes
long; the End variant itself serializes to no bytes at all. -/
theorem claim10_toBytes (p : DhcpPacket) :
    p.toBytes.length = 241 + ((p.options.map DhcpOption.encodeOpt).flatten).length ∧
    241 ≤ p.toBytes.length ∧
    (p.toBytes.drop 236).take 4 = magicCookie ∧
    p.toBytes.drop 240 = (p.options.map DhcpOption.encodeOpt).flatten ++ [255] ∧
    DhcpOption.encodeOpt .endMarker = [] := by
  obtain ⟨op, htype, hl, hops, xid, secs, flags, ci, yi, si, gi, ch, opts⟩ := p
  obtain ⟨c0, c1, c2, c3⟩ := ci
  obtain ⟨y0, y1, y2, y3⟩ := yi
  obtain ⟨v0, v1, v2, v3⟩ := si
  obtain ⟨g0, g1, g2, g3⟩ := gi
  obtain ⟨h0, h1, h2, h3, h4, h5⟩ := ch
  have hbytes : DhcpPacket.toBytes
      ⟨op, htype, hl, hops, xid, secs, flags, ⟨c0, c1, c2, c3⟩, ⟨y0, y1, y2, y3⟩,
        ⟨v0, v1, v2, v3⟩, ⟨g0, g1, g2, g3⟩, ⟨h0, h1, h2, h3, h4, h5⟩, opts⟩ =
      op :: htype :: hl :: hops ::
      mkByte (xid / 16777216) :: mkByte (xid / 65536) :: mkByte (xid / 256) :: mkByte xid ::
      mkByte (secs / 256) :: mkByte secs :: mkByte (flags / 256) :: mkByte flags ::
      c0 :: c1 :: c2 :: c3 :: y0 :: y1 :: y2 :: y3 :: v0 :: v1 :: v2 :: v3 ::
      g0 :: g1 :: g2 :: g3 :: h0 :: h1 :: h2 :: h3 :: h4 :: h5 ::
      (List.replicate 202 (0 : Byte) ++ ((99 : Byte) :: (130 : Byte) :: (83 : Byte) :: (99 : Byte) ::
        ((opts.map DhcpOption.encodeOpt).flatten ++ [255]))) := by
    simp [DhcpPacket.toBytes, u32be, u16be, Ipv4.octets, MacAddress.octets, magicCookie]
  have hlen : (DhcpPacket.toBytes
      ⟨op, htype, hl, hops, xid, secs, flags, ⟨c0, c1, c2, c3⟩, ⟨y0, y1, y2, y3⟩,
        ⟨v0, v1, v2, v3⟩, ⟨g0, g1, g2, g3⟩, ⟨h0, h1, h2, h3, h4, h5⟩, opts⟩).length =
      241 + ((opts.map DhcpOption.encodeOpt).flatten).length := by
    rw [hbytes]
    simp only [List.length_cons, List.length_append, List.length_replicate, List.length_nil]
    omega
  refine ⟨hlen, by rw [hlen]; omega, ?_, ?_, rfl⟩
  · rw [hbytes]
    rfl
  · rw [hbytes]
    rfl
